import Mathlib

/-!
Verification of the CHARM wearable-data pipeline (ADAMMA-CDHI-ETH-Zurich/CHARM).

Shallow embedding of the Python source into Lean 4.  Timestamps are modelled
as integers (minutes, or absolute hour indices where the code works at hour
granularity); measurement values are rationals.  Pandas boolean indexing is
modelled by `List.filter` (which preserves row order), `Series.shift`
comparisons by zipping a list with its tail, and `sort_values` by `mergeSort`.
-/

namespace Charm

/-! ### Basic statistics helpers (pandas `mean`, `var` with `ddof = 1`) -/

/-- Mean of a list of rationals (`Series.mean`); division by zero yields 0. -/
def listMean (l : List ℚ) : ℚ := l.sum / l.length

/-- Sample variance with `ddof = 1`, pandas' `Series.var` default. -/
def listVar (l : List ℚ) : ℚ :=
  ((l.map (fun x => (x - listMean l) ^ 2)).sum) / ((l.length : ℚ) - 1)

/-! ### `remove_single_non_wearing` (scripts/algorithms/counts_cal_.py)

A row of the merged activity-count table is modelled by the pair of its
`diff` and `average` columns.  The source computes
`condition_1 = (diff < 2*average) & (diff > -2*average)`,
`condition_2 = (abs(diff) < 500)` and keeps rows with `condition_1 | condition_2`;
the returned removal percentage is not modelled. -/

/-- Second-pass sample filter from `remove_single_non_wearing`. -/
def remove_single_non_wearing (data : List (ℚ × ℚ)) : List (ℚ × ℚ) :=
  data.filter (fun r => (r.1 < 2 * r.2 ∧ r.1 > -(2 * r.2)) ∨ |r.1| < 500)

/-- The spec's wording of the same rule: keep a sample iff the absolute
difference is less than twice the average or below 500. -/
def specSingleKeep (r : ℚ × ℚ) : Prop := |r.1| < 2 * r.2 ∨ |r.1| < 500

instance : DecidablePred specSingleKeep := fun _ =>
  inferInstanceAs (Decidable (_ ∨ _))

/-! ### `find_charging_time` (scripts/time_preprocessing/01_Watch_charging.py)

A battery sample is a pair (time in minutes, state code).  `shift(1)`
comparisons of the state column are modelled by zipping the row list with its
tail: the pair `(rows[i], rows[i+1])` witnesses both the increase mask at
index `i+1` (previous state in {1,2}, current in {3,4,5,6}) and the decrease
mask at index `i` (current in {3,4,5,6}, next in {1,2}). -/

/-- Not-charging state codes, the `isin([1,2])` test of the source. -/
def isNotChargingCode (x : ℤ) : Prop := x = 1 ∨ x = 2

/-- Charging state codes, the `isin([3, 4, 5, 6])` test of the source. -/
def isChargingCode (x : ℤ) : Prop := x = 3 ∨ x = 4 ∨ x = 5 ∨ x = 6

instance : DecidablePred isNotChargingCode := fun _ =>
  inferInstanceAs (Decidable (_ ∨ _))

instance : DecidablePred isChargingCode := fun _ =>
  inferInstanceAs (Decidable (_ ∨ _))

/-- Charge-start times: rows where the state moves from {1,2} to {3,4,5,6},
minus the 2-minute buffer. -/
def chargeStarts (rows : List (ℤ × ℤ)) : List ℤ :=
  (rows.zip rows.tail).filterMap (fun p =>
    if isNotChargingCode p.1.2 ∧ isChargingCode p.2.2
    then some (p.2.1 - 2) else none)

/-- Charge-end times: rows in {3,4,5,6} whose successor state is in {1,2},
plus the 2-minute buffer. -/
def chargeEnds (rows : List (ℤ × ℤ)) : List ℤ :=
  (rows.zip rows.tail).filterMap (fun p =>
    if isNotChargingCode p.2.2 ∧ isChargingCode p.1.2
    then some (p.1.1 + 2) else none)

/-- `find_charging_time`'s reconciliation of the two timestamp lists:
`del charge_endtime[0]` removes the first end when ends outnumber starts,
`charge_starttime[:-1]` removes the last start when starts outnumber ends. -/
def find_charging_time (rows : List (ℤ × ℤ)) : List ℤ × List ℤ :=
  if (chargeStarts rows).length < (chargeEnds rows).length then
    (chargeStarts rows, (chargeEnds rows).drop 1)
  else if (chargeEnds rows).length < (chargeStarts rows).length then
    ((chargeStarts rows).dropLast, chargeEnds rows)
  else (chargeStarts rows, chargeEnds rows)

/-! ### `combine_battery_nofile` (scripts/time_preprocessing/02_Watch_times.py)

Both timestamp columns are sorted, paired positionally, and every index where
the start is not strictly before the end is dropped from both columns; since
the same index labels are dropped from both series, the rows of the resulting
data frame are exactly the surviving (start, end) pairs. -/

/-- Combined valid-wear table built from battery wear times and no-file
intervals. -/
def combine_battery_nofile (startTimes endTimes nofileStarts nofileEnds : List ℤ) :
    List (ℤ × ℤ) :=
  let combinedStarts := (startTimes ++ nofileEnds).mergeSort (· ≤ ·)
  let combinedEnds := (endTimes ++ nofileStarts).mergeSort (· ≤ ·)
  (combinedStarts.zip combinedEnds).filter (fun p => p.1 < p.2)

/-! ### Transition counting for the state-transition pass -/

/-- Number of rising transitions (`increase_mask`) in a battery series. -/
def startCount (rows : List (ℤ × ℤ)) : ℕ :=
  (rows.zip rows.tail).countP
    (fun p => decide (isNotChargingCode p.1.2 ∧ isChargingCode p.2.2))

/-- Number of falling transitions (`decrease_mask`) in a battery series. -/
def endCount (rows : List (ℤ × ℤ)) : ℕ :=
  (rows.zip rows.tail).countP
    (fun p => decide (isNotChargingCode p.2.2 ∧ isChargingCode p.1.2))

/-- Indicator of a charging state code. -/
def chi (x : ℤ) : ℤ := if isChargingCode x then 1 else 0

lemma length_filterMap_ite {α β : Type} (P : α → Prop) [DecidablePred P] (g : α → β) :
    ∀ l : List α, (l.filterMap (fun a => if P a then some (g a) else none)).length
      = l.countP (fun a => decide (P a)) := by
  intro l
  induction l with
  | nil => rfl
  | cons a l ih =>
    by_cases h : P a <;> simp [List.filterMap_cons, List.countP_cons, h, ih]

lemma chargeStarts_length (rows : List (ℤ × ℤ)) :
    (chargeStarts rows).length = startCount rows :=
  length_filterMap_ite _ _ _

lemma chargeEnds_length (rows : List (ℤ × ℤ)) :
    (chargeEnds rows).length = endCount rows :=
  length_filterMap_ite _ _ _

lemma start_end_balance : ∀ (a : ℤ × ℤ) (l : List (ℤ × ℤ)),
    (∀ r ∈ a :: l, isNotChargingCode r.2 ∨ isChargingCode r.2) →
    (startCount (a :: l) : ℤ) - endCount (a :: l) = chi ((l.getLastD a).2) - chi a.2 := by
  intro a l
  induction l generalizing a with
  | nil =>
    intro _
    simp [startCount, endCount, chi]
  | cons b l ih =>
    intro h
    have hab : isNotChargingCode a.2 ∨ isChargingCode a.2 := h a (by simp)
    have hbb : isNotChargingCode b.2 ∨ isChargingCode b.2 := h b (by simp)
    have hb : ∀ r ∈ b :: l, isNotChargingCode r.2 ∨ isChargingCode r.2 := by
      intro r hr
      exact h r (List.mem_cons_of_mem a hr)
    have hstep := ih b hb
    have hs : startCount (a :: b :: l) =
        startCount (b :: l) +
          (if isNotChargingCode a.2 ∧ isChargingCode b.2 then 1 else 0) := by
      simp [startCount, List.countP_cons]
    have he : endCount (a :: b :: l) =
        endCount (b :: l) +
          (if isNotChargingCode b.2 ∧ isChargingCode a.2 then 1 else 0) := by
      simp [endCount, List.countP_cons]
    have key : ((if isNotChargingCode a.2 ∧ isChargingCode b.2 then 1 else 0 : ℤ)) -
        (if isNotChargingCode b.2 ∧ isChargingCode a.2 then 1 else 0) =
          chi b.2 - chi a.2 := by
      simp only [chi, isNotChargingCode, isChargingCode]
      rcases hab with h1 | h1 <;> rcases hbb with h2 | h2 <;>
        simp only [isNotChargingCode, isChargingCode] at h1 h2 <;>
        split_ifs <;> omega
    rw [List.getLastD_cons]
    rw [hs, he]
    push_cast
    linarith [hstep, key]

lemma start_end_imbalance_le_one (rows : List (ℤ × ℤ))
    (h : ∀ r ∈ rows, isNotChargingCode r.2 ∨ isChargingCode r.2) :
    (startCount rows : ℤ) - endCount rows ≤ 1 ∧
      (endCount rows : ℤ) - startCount rows ≤ 1 := by
  cases rows with
  | nil => simp [startCount, endCount]
  | cons a l =>
    have hbal := start_end_balance a l h
    unfold chi at hbal
    constructor <;> [skip; skip] <;> split_ifs at hbal <;> omega

/-! ### Reader-level deduplication and sorting (scripts/utils/read_file.py)

`acc_watch_csv` deduplicates its time index with `~df.index.duplicated()`
(pandas' default `keep='first'`), then executes
`df.index = df.index.sort_values()`, which replaces the index by its sorted
version without reordering the value rows.  `core_csv` runs
`df.drop_duplicates(keep='last')` over whole rows. -/

/-- `df.loc[~df.index.duplicated(), :]`: keep the first row of each
duplicated timestamp. -/
def dedupFirstByTime {α : Type} : List (ℤ × α) → List (ℤ × α)
  | [] => []
  | r :: rest => r :: dedupFirstByTime (rest.filter (fun s => decide (s.1 ≠ r.1)))
termination_by l => l.length
decreasing_by
  simp only [List.length_cons]
  exact Nat.lt_succ_of_le (List.length_filter_le _ _)

/-- `df.index = df.index.sort_values()`: the sorted timestamps are reattached
to the value rows in their existing order. -/
def sortIndexKeepValues {α : Type} (l : List (ℤ × α)) : List (ℤ × α) :=
  ((l.map Prod.fst).mergeSort (· ≤ ·)).zip (l.map Prod.snd)

/-- `df.drop_duplicates(keep='last')` of `core_csv`: a row is kept iff it does
not occur again later. -/
def drop_duplicates_keep_last {α : Type} [DecidableEq α] : List α → List α
  | [] => []
  | x :: xs =>
    if x ∈ xs then drop_duplicates_keep_last xs else x :: drop_duplicates_keep_last xs

/-- First value carried by timestamp `t` in a time-indexed row list. -/
def firstValueAt {α : Type} (t : ℤ) : List (ℤ × α) → Option α
  | [] => none
  | p :: rest => if p.1 = t then some p.2 else firstValueAt t rest

lemma firstValueAt_filter_ne {α : Type} (t r : ℤ) (h : t ≠ r) :
    ∀ l : List (ℤ × α),
      firstValueAt t (l.filter (fun s => decide (s.1 ≠ r))) = firstValueAt t l := by
  intro l
  induction l with
  | nil => rfl
  | cons p l ih =>
    by_cases hp : p.1 = r
    · rw [List.filter_cons_of_neg (by simp [hp]), ih, firstValueAt,
        if_neg (by rw [hp]; exact fun hx => h hx.symm)]
    · rw [List.filter_cons_of_pos (by simp [hp])]
      by_cases ht : p.1 = t
      · rw [firstValueAt, if_pos ht, firstValueAt, if_pos ht]
      · rw [firstValueAt, if_neg ht, firstValueAt, if_neg ht, ih]

lemma dedupFirstByTime_firstValueAt {α : Type} :
    ∀ (n : ℕ) (l : List (ℤ × α)), l.length ≤ n →
      ∀ t, firstValueAt t (dedupFirstByTime l) = firstValueAt t l := by
  intro n
  induction n with
  | zero =>
    intro l hl t
    have : l = [] := List.eq_nil_of_length_eq_zero (Nat.le_zero.mp hl)
    subst this
    rw [dedupFirstByTime]
  | succ n ih =>
    intro l hl t
    cases l with
    | nil => rw [dedupFirstByTime]
    | cons p rest =>
      rw [dedupFirstByTime]
      by_cases ht : p.1 = t
      · rw [firstValueAt, if_pos ht, firstValueAt, if_pos ht]
      · have hlen : (rest.filter (fun s => decide (s.1 ≠ p.1))).length ≤ n := by
          have := List.length_filter_le (fun s => decide (s.1 ≠ p.1)) rest
          simp only [List.length_cons] at hl
          omega
        rw [firstValueAt, if_neg ht, firstValueAt, if_neg ht, ih _ hlen t,
          firstValueAt_filter_ne t p.1 (fun hx => ht hx.symm)]

lemma mem_of_mem_dedupFirstByTime {α : Type} :
    ∀ (n : ℕ) (l : List (ℤ × α)), l.length ≤ n →
      ∀ r, r ∈ dedupFirstByTime l → r ∈ l := by
  intro n
  induction n with
  | zero =>
    intro l hl r
    have : l = [] := List.eq_nil_of_length_eq_zero (Nat.le_zero.mp hl)
    subst this
    rw [dedupFirstByTime]
    exact fun h => h
  | succ n ih =>
    intro l hl r hr
    cases l with
    | nil =>
      rw [dedupFirstByTime] at hr
      exact hr
    | cons p rest =>
      rw [dedupFirstByTime] at hr
      rcases List.mem_cons.mp hr with h | h
      · simp [h]
      · have hlen : (rest.filter (fun s => decide (s.1 ≠ p.1))).length ≤ n := by
          have := List.length_filter_le (fun s => decide (s.1 ≠ p.1)) rest
          simp only [List.length_cons] at hl
          omega
        have := ih _ hlen r h
        exact List.mem_cons_of_mem p (List.mem_of_mem_filter this)

lemma dedupFirstByTime_times_nodup {α : Type} :
    ∀ (n : ℕ) (l : List (ℤ × α)), l.length ≤ n →
      ((dedupFirstByTime l).map Prod.fst).Nodup := by
  intro n
  induction n with
  | zero =>
    intro l hl
    have : l = [] := List.eq_nil_of_length_eq_zero (Nat.le_zero.mp hl)
    subst this
    rw [dedupFirstByTime]
    simp
  | succ n ih =>
    intro l hl
    cases l with
    | nil =>
      rw [dedupFirstByTime]
      simp
    | cons p rest =>
      rw [dedupFirstByTime]
      have hlen : (rest.filter (fun s => decide (s.1 ≠ p.1))).length ≤ n := by
        have := List.length_filter_le (fun s => decide (s.1 ≠ p.1)) rest
        simp only [List.length_cons] at hl
        omega
      rw [List.map_cons, List.nodup_cons]
      refine ⟨?_, ih _ hlen⟩
      intro hmem
      rcases List.mem_map.mp hmem with ⟨s, hs, hfst⟩
      have hsl := mem_of_mem_dedupFirstByTime n _ hlen s hs
      have := List.of_mem_filter hsl
      simp only [decide_eq_true_eq] at this
      exact this hfst

lemma drop_duplicates_keep_last_append {α : Type} [DecidableEq α] (x : α) :
    ∀ l : List α,
      drop_duplicates_keep_last (l ++ [x]) =
        (drop_duplicates_keep_last l).filter (fun y => decide (y ≠ x)) ++ [x] := by
  intro l
  induction l with
  | nil => simp [drop_duplicates_keep_last]
  | cons y l ih =>
    by_cases hy : y ∈ l
    · rw [List.cons_append, drop_duplicates_keep_last, if_pos (by simp [hy]), ih,
        drop_duplicates_keep_last, if_pos hy]
    · by_cases hyx : y = x
      · rw [List.cons_append, drop_duplicates_keep_last, if_pos (by simp [hyx]), ih,
          drop_duplicates_keep_last, if_neg hy]
        rw [List.filter_cons_of_neg (by simp [hyx])]
      · rw [List.cons_append, drop_duplicates_keep_last,
          if_neg (by simp [hy, hyx]), ih,
          drop_duplicates_keep_last, if_neg hy]
        rw [List.filter_cons_of_pos (by simp [hyx])]
        rfl

/-! ### `acc_watch_csv` and `hr_csv` (scripts/utils/read_file.py)

A raw acceleration row is (optional Unix timestamp in ms, x, y, z); `none`
models a row whose timestamp failed numeric coercion.  The reader drops rows
without a timestamp, rejects the file when fewer than 50 rows remain, keeps
rows inside the file's hour (`between` is inclusive on both ends), scales by
1/4096, deduplicates the time index keeping the first occurrence and installs
the sorted index; the final 20 ms nearest-neighbour reindexing onto the
regular grid is not modelled (the claims under check end before it). -/

/-- Reader for one hourly smartwatch acceleration file. -/
def acc_watch_csv (hourStartMs : ℤ) (rows : List (Option ℤ × ℚ × ℚ × ℚ)) :
    Option (List (ℤ × ℚ × ℚ × ℚ)) :=
  let df := rows.filterMap (fun r =>
    match r.1 with
    | some t => some (t, r.2)
    | none => none)
  if df.length < 50 then none
  else
    let df1 := df.filter (fun r => hourStartMs ≤ r.1 ∧ r.1 ≤ hourStartMs + 3600000)
    let df2 := df1.map (fun r =>
      (r.1, r.2.1 / 4096, r.2.2.1 / 4096, r.2.2.2 / 4096))
    some (sortIndexKeepValues (dedupFirstByTime df2))

/-- Reader for one hourly heart-rate file: rows are (optional timestamp,
status, optional hr, rr-interval).  The under-50 check runs on the rows with a
non-null raw timestamp, before any other filtering; samples whose status is
not 1 lose their hr value and are then dropped, and times are truncated to
whole seconds. -/
def hr_csv (hourStartMs : ℤ) (rows : List (Option ℤ × ℤ × Option ℚ × ℚ)) :
    Option (List (ℤ × ℚ × ℚ)) :=
  if rows.length < 50 then none
  else
    some (((rows.filterMap (fun r =>
        match r.1 with
        | some t => some (t, r.2)
        | none => none))
      |>.filter (fun r => hourStartMs ≤ r.1 ∧ r.1 ≤ hourStartMs + 3600000))
      |>.filterMap (fun r =>
        if r.2.1 = 1 then
          (r.2.2.1).map (fun hrv => (r.1 / 1000 * 1000, hrv, r.2.2.2))
        else none))

/-! ### `remove_both_non_wearing` (scripts/algorithms/counts_cal_.py)

A merged activity-count row is (time in minutes, Watch AC, Actigraph AC).
`pd.date_range(data.time.min(), data.time.max() - 15min, freq='15T')` yields
the window starts; each window is the rows in [ws, ws+15); a window whose
start lies strictly inside a sleep interval is kept, otherwise a window with
at least 2 samples whose rows are all zero in both device columns except the
last is dropped and its first timestamp recorded as a non-wear start. -/

/-- `check_both_zero` of scripts/utils/read_file.py. -/
def check_both_zero (l : List (ℤ × ℚ × ℚ)) : Bool :=
  l.all (fun s => decide (s.2.1 = 0)) && l.all (fun s => decide (s.2.2 = 0))

/-- The 15-minute window starts generated by `pd.date_range`. -/
def windowStarts (m0 M : ℤ) : List ℤ :=
  if m0 ≤ M - 15 then
    (List.range (((M - 15 - m0) / 15).toNat + 1)).map (fun k => m0 + 15 * k)
  else []

/-- Rows of the merged table falling in the window [ws, ws+15). -/
def windowOf (data : List (ℤ × ℚ × ℚ)) (ws : ℤ) : List (ℤ × ℚ × ℚ) :=
  data.filter (fun s => decide (ws ≤ s.1) && decide (s.1 < ws + 15))

/-- The window start lies strictly inside some sleep interval. -/
def inSleep (sleep : List (ℤ × ℤ)) (ws : ℤ) : Bool :=
  sleep.any (fun iv => decide (ws > iv.1) && decide (ws < iv.2))

/-- First-pass non-wear filter `remove_both_non_wearing`, returning the
non-wear start list and the retained table (the removal percentage is not
modelled). -/
def remove_both_non_wearing (data : List (ℤ × ℚ × ℚ)) (sleep : List (ℤ × ℤ)) :
    List ℤ × List (ℤ × ℚ × ℚ) :=
  (windowStarts (((data.map Prod.fst).min?).getD 0)
      (((data.map Prod.fst).max?).getD 0)).foldl
    (fun acc ws =>
      if inSleep sleep ws = false ∧ 2 ≤ (windowOf data ws).length then
        if check_both_zero (windowOf data ws).dropLast then
          (acc.1 ++ [((windowOf data ws).map Prod.fst).headD 0], acc.2)
        else (acc.1, acc.2 ++ windowOf data ws)
      else (acc.1, acc.2 ++ windowOf data ws))
    ([], [])

/-- The claim's removal rule for a window: not in sleep, at least two
samples, and both device columns zero on all but the last sample. -/
def removedWindow (data : List (ℤ × ℚ × ℚ)) (sleep : List (ℤ × ℤ)) (ws : ℤ) : Prop :=
  inSleep sleep ws = false ∧ 2 ≤ (windowOf data ws).length ∧
    check_both_zero (windowOf data ws).dropLast = true

instance (data : List (ℤ × ℚ × ℚ)) (sleep : List (ℤ × ℤ)) :
    DecidablePred (removedWindow data sleep) := fun _ =>
  inferInstanceAs (Decidable (_ ∧ _))

lemma rbnw_foldl_spec (data : List (ℤ × ℚ × ℚ)) (sleep : List (ℤ × ℤ)) :
    ∀ (wss : List ℤ) (acc : List ℤ × List (ℤ × ℚ × ℚ)),
      wss.foldl
        (fun acc ws =>
          if inSleep sleep ws = false ∧ 2 ≤ (windowOf data ws).length then
            if check_both_zero (windowOf data ws).dropLast then
              (acc.1 ++ [((windowOf data ws).map Prod.fst).headD 0], acc.2)
            else (acc.1, acc.2 ++ windowOf data ws)
          else (acc.1, acc.2 ++ windowOf data ws)) acc =
      (acc.1 ++ wss.filterMap (fun ws =>
          if removedWindow data sleep ws then
            some (((windowOf data ws).map Prod.fst).headD 0)
          else none),
       acc.2 ++ wss.flatMap (fun ws =>
          if removedWindow data sleep ws then [] else windowOf data ws)) := by
  intro wss
  induction wss with
  | nil => simp
  | cons ws wss ih =>
    intro acc
    rw [List.foldl_cons, ih, List.filterMap_cons, List.flatMap_cons]
    by_cases h1 : inSleep sleep ws = false ∧ 2 ≤ (windowOf data ws).length
    · by_cases h2 : check_both_zero (windowOf data ws).dropLast = true
      · have hr : removedWindow data sleep ws := ⟨h1.1, h1.2, h2⟩
        simp only [if_pos h1, if_pos h2, if_pos hr]
        simp
      · have hr : ¬ removedWindow data sleep ws := fun hc => h2 hc.2.2
        simp only [if_pos h1, if_neg h2, if_neg hr]
        simp
    · have hr : ¬ removedWindow data sleep ws := fun hc => h1 ⟨hc.1, hc.2.1⟩
      simp only [if_neg h1, if_neg hr]
      simp

/-! ### `files_to_time` (scripts/time_preprocessing/02_Watch_times.py)

Missing hourly files are modelled by their absolute hour index; the hour-
format string comparison `current_start == previous_datetime.strftime(...)`
is equality of hour indices, and the `timedelta(hours=1)` gap test becomes
`cur - p > 1` on hour indices.  The loop state is (`current_start`,
`previous_datetime`, accumulated interval starts/ends). -/

/-- Gap test of the scan loop: `previous_datetime` is set and the current
missing hour is more than one hour after it. -/
def f2t_gap (cur : ℕ) (prev : Option ℕ) : Bool :=
  match prev with
  | some p => decide (cur - p > 1)
  | none => false

/-- Close the open run: emit its interval (1-hour for a run of one, else up
to one hour past the previous hour) and clear `current_start`. -/
def f2t_close (cs prev : Option ℕ) (starts ends : List ℕ) : Option ℕ × List ℕ × List ℕ :=
  match cs with
  | some c =>
    (match prev with
     | some p =>
       if c = p then (none, starts ++ [c], ends ++ [c + 1])
       else (none, starts ++ [c], ends ++ [p + 1])
     | none => (none, starts ++ [c], ends ++ [c + 1]))
  | none => (none, starts, ends)

/-- Open a run at the current hour when none is open. -/
def f2t_open (cur : ℕ) (cs : Option ℕ) : Option ℕ :=
  match cs with
  | none => some cur
  | some c => some c

/-- One iteration of the scan loop of `files_to_time`. -/
def f2t_step (cur : ℕ) (cs prev : Option ℕ) (starts ends : List ℕ) :
    Option ℕ × List ℕ × List ℕ :=
  let st1 : Option ℕ × List ℕ × List ℕ :=
    if f2t_gap cur prev then f2t_close cs prev starts ends else (cs, starts, ends)
  (f2t_open cur st1.1, st1.2.1, st1.2.2)

/-- Final flush after the scan loop. -/
def f2t_flush (cs prev : Option ℕ) (starts ends : List ℕ) : List ℕ × List ℕ :=
  match cs with
  | some c =>
    (match prev with
     | some p =>
       if c = p then (starts ++ [c], ends ++ [c + 1]) else (starts ++ [c], ends ++ [p + 1])
     | none => (starts ++ [c], ends ++ [c + 1]))
  | none => (starts, ends)

def f2t_loop : List ℕ → Option ℕ → Option ℕ → List ℕ → List ℕ → List ℕ × List ℕ
  | [], cs, prev, starts, ends => f2t_flush cs prev starts ends
  | cur :: rest, cs, prev, starts, ends =>
    f2t_loop rest (f2t_step cur cs prev starts ends).1 (some cur)
      (f2t_step cur cs prev starts ends).2.1 (f2t_step cur cs prev starts ends).2.2

def files_to_time (ms : List ℕ) : List ℕ × List ℕ :=
  f2t_loop ms none none [] []

def specRunGo (start last : ℕ) : List ℕ → List (ℕ × ℕ)
  | [] => [(start, last + 1)]
  | y :: ys =>
    if last + 1 < y then (start, last + 1) :: specRunGo y y ys else specRunGo start y ys

def specRuns : List ℕ → List (ℕ × ℕ)
  | [] => []
  | x :: xs => specRunGo x x xs

lemma f2t_step_gap (cur c p : ℕ) (starts ends : List ℕ) (h : cur - p > 1) :
    f2t_step cur (some c) (some p) starts ends =
      (some cur, starts ++ [c], ends ++ [if c = p then c + 1 else p + 1]) := by
  by_cases hcp : c = p <;> simp [f2t_step, f2t_gap, f2t_close, f2t_open, h, hcp]

lemma f2t_step_nogap (cur c p : ℕ) (starts ends : List ℕ) (h : ¬ cur - p > 1) :
    f2t_step cur (some c) (some p) starts ends = (some c, starts, ends) := by
  simp [f2t_step, f2t_gap, f2t_open, h]

lemma f2t_loop_spec :
    ∀ (rest : List ℕ) (c p : ℕ) (starts ends : List ℕ),
      f2t_loop rest (some c) (some p) starts ends =
        (starts ++ (specRunGo c p rest).map Prod.fst,
         ends ++ (specRunGo c p rest).map Prod.snd) := by
  intro rest
  induction rest with
  | nil =>
    intro c p starts ends
    by_cases hcp : c = p
    · subst hcp
      simp [f2t_loop, f2t_flush, specRunGo]
    · simp [f2t_loop, f2t_flush, specRunGo, hcp]
  | cons cur rest ih =>
    intro c p starts ends
    by_cases hgap : p + 1 < cur
    · have hg : cur - p > 1 := by omega
      rw [f2t_loop, f2t_step_gap cur c p starts ends hg]
      rw [specRunGo, if_pos hgap]
      by_cases hcp : c = p <;>
        simp [ih, hcp]
    · have hg : ¬ cur - p > 1 := by omega
      rw [f2t_loop, f2t_step_nogap cur c p starts ends hg]
      rw [specRunGo, if_neg hgap]
      exact ih c cur starts ends

/-! ### `charging_timev2` charge-start scan
(scripts/time_preprocessing/01_Watch_charging.py)

A battery row is (time in minutes, level).  For the window
`rows[i : i+40]`, pandas' `diff()` yields NaN at position 0 and the 39 real
differences modelled by `windowDiffs`; `level_diff[:20]` therefore carries
19 real differences (`take 19`) and `level_diff[20:]` the remaining 20
(`drop 19`).  The source's guard is
`level_diff[:half_window].all() <= 0 and level_diff[half_window:].sum() > increase_thres`:
`Series.all()` returns the boolean "every non-NaN difference is nonzero", so
comparing it `<= 0` holds exactly when some of the 19 differences is zero —
`v2CondCode`.  The scan is a while loop advancing by 40 on a match and by 1
otherwise, guarded by `i < len(df_battery) - window_size`; it is modelled
with a fuel argument, and `v2_go_fuel_irrelevant` shows any fuel of at least
`rows.length + 1` computes the loop's result since `i` grows every
iteration. -/

/-- Consecutive differences of a level series, pandas `diff()` without the
leading NaN. -/
def windowDiffs (levels : List ℤ) : List ℤ :=
  (levels.zip levels.tail).map (fun p => p.2 - p.1)

/-- The guard actually executed by the source (see section comment). -/
def v2CondCode (w : List (ℤ × ℤ)) : Bool :=
  ((windowDiffs (w.map Prod.snd)).take 19).any (fun x => decide (x = 0)) &&
    decide (5 < ((windowDiffs (w.map Prod.snd)).drop 19).sum)

/-- Modelled from the spec: the window guard as the spec and the code's own
comment describe it — the first-half level differences are all
non-increasing and the second-half differences sum to more than the
5-percentage-point threshold. -/
def v2CondSpec (w : List (ℤ × ℤ)) : Bool :=
  ((windowDiffs (w.map Prod.snd)).take 19).all (fun x => decide (x ≤ 0)) &&
    decide (5 < ((windowDiffs (w.map Prod.snd)).drop 19).sum)

/-- The charge-start scan loop of `charging_timev2`, parametrized by the
window guard. -/
def v2_go (cond : List (ℤ × ℤ) → Bool) (rows : List (ℤ × ℤ)) : ℕ → ℕ → List ℤ
  | 0, _ => []
  | fuel + 1, i =>
    if i < rows.length - 40 then
      if cond ((rows.drop i).take 40) then
        ((((rows.drop i).take 40).headD (0, 0)).1 - 5) :: v2_go cond rows fuel (i + 40)
      else v2_go cond rows fuel (i + 1)
    else []

lemma v2_go_fuel_irrelevant (cond : List (ℤ × ℤ) → Bool) (rows : List (ℤ × ℤ)) :
    ∀ (f1 f2 i : ℕ), rows.length - 40 ≤ i + f1 → rows.length - 40 ≤ i + f2 →
      v2_go cond rows f1 i = v2_go cond rows f2 i := by
  intro f1
  induction f1 with
  | zero =>
    intro f2 i h1 h2
    cases f2 with
    | zero => rfl
    | succ b =>
      rw [v2_go, v2_go, if_neg (by omega)]
  | succ a ih =>
    intro f2 i h1 h2
    cases f2 with
    | zero =>
      rw [v2_go, v2_go, if_neg (by omega)]
    | succ b =>
      rw [v2_go, v2_go]
      by_cases hg : i < rows.length - 40
      · rw [if_pos hg, if_pos hg]
        by_cases hc : cond ((rows.drop i).take 40) = true
        · rw [if_pos hc, if_pos hc, ih b (i + 40) (by omega) (by omega)]
        · rw [if_neg hc, if_neg hc, ih b (i + 1) (by omega) (by omega)]
      · rw [if_neg hg, if_neg hg]

/-- The wear-interval end list emitted by `charging_timev2`'s first loop:
each detected charge start minus the 5-minute buffer, then the study end. -/
def charging_timev2_starts (rows : List (ℤ × ℤ)) (endTime : ℤ) : List ℤ :=
  v2_go v2CondCode rows (rows.length + 1) 0 ++ [endTime]

/-- Modelled from the spec: the same loop with the spec's window guard. -/
def charging_timev2_starts_specModel (rows : List (ℤ × ℤ)) (endTime : ℤ) : List ℤ :=
  v2_go v2CondSpec rows (rows.length + 1) 0 ++ [endTime]

/-- Battery level profile of the C4 failing input: strictly decreasing for
the first 20 samples (60 down to 41), then strictly increasing by 1 up to 61,
with a 41st sample so the scan examines the window at index 0. -/
def c4Level (j : ℕ) : ℤ :=
  if j < 20 then 60 - (j : ℤ) else if j < 40 then 22 + (j : ℤ) else 62

/-- The C4 failing input: 41 battery samples at minutes 0..40. -/
def c4FailRows : List (ℤ × ℤ) := (List.range 41).map (fun (j : ℕ) => ((j : ℤ), c4Level j))

/-! ### `acro_neg_to_pos`
(scripts/circadian_calculation_comparison/01_Cosinor_metrics.py)

The while loop `while value < 0: value += two_pi` modelled over the exact
reals; termination uses the number of outstanding additions of 2π. -/

/-- Acrophase canonicalization: add 2π until the value is non-negative. -/
noncomputable def acro_neg_to_pos (x : ℝ) : ℝ :=
  if h : x < 0 then acro_neg_to_pos (x + 2 * Real.pi) else x
termination_by (Int.ceil (-x / (2 * Real.pi))).toNat
decreasing_by
  have hpi : (0 : ℝ) < 2 * Real.pi := by positivity
  have hy : 0 < -x / (2 * Real.pi) := div_pos (by linarith) hpi
  have heq : -(x + 2 * Real.pi) / (2 * Real.pi) = -x / (2 * Real.pi) - 1 := by
    field_simp
    ring
  rw [heq, Int.ceil_sub_one]
  have h1 : 0 < Int.ceil (-x / (2 * Real.pi)) := Int.ceil_pos.mpr hy
  omega

/-! ### `non_parametrics` (scripts/circadian_calculation_comparison/02_CR_non_parametric.py)

A scaled minute-indexed series is a list of (absolute minute, value) rows.
`data.groupby([data.index.hour, data.index.minute]).mean().var()` groups by
the pair (hour of day, minute of hour) — `minuteKey` — takes each group's
mean and the `ddof = 1` variance of those means; `data.var()` is the overall
variance and `data.diff(1).pow(2).mean()` the mean of the n−1 squared
consecutive differences.  `non_parametrics` returns the (IS, IV) pair; the
M10/L5/RA outputs are not under test here.  `IS_specHour` is the IS formula
as the spec words it, grouping by hour of day only. -/

/-- Sum of squared deviations from the mean. -/
def listSS (l : List ℚ) : ℚ := (l.map (fun x => (x - listMean l) ^ 2)).sum

lemma listVar_eq (l : List ℚ) : listVar l = listSS l / ((l.length : ℚ) - 1) := rfl

def minuteKey (t : ℕ) : ℕ × ℕ := ((t / 60) % 24, t % 60)

def groupKeys {κ : Type} [DecidableEq κ] (key : ℕ → κ) (data : List (ℕ × ℚ)) : List κ :=
  (data.map (fun r => key r.1)).dedup

def groupVals {κ : Type} [DecidableEq κ] (key : ℕ → κ) (data : List (ℕ × ℚ)) (k : κ) :
    List ℚ :=
  (data.filter (fun r => decide (key r.1 = k))).map Prod.snd

def groupMeans {κ : Type} [DecidableEq κ] (key : ℕ → κ) (data : List (ℕ × ℚ)) : List ℚ :=
  (groupKeys key data).map (fun k => listMean (groupVals key data k))

def non_parametrics (data : List (ℕ × ℚ)) : ℚ × ℚ :=
  (listVar (groupMeans minuteKey data) / listVar (data.map Prod.snd),
   listMean (((data.map Prod.snd).zip (data.map Prod.snd).tail).map
       (fun q => (q.2 - q.1) ^ 2)) /
     listVar (data.map Prod.snd))

def periodicData (p : List ℚ) (d : ℕ) : List (ℕ × ℚ) :=
  (List.range (1440 * d)).map (fun t => (t, p.getD (t % 1440) 0))

def dayBlock (p : List ℚ) : List (ℕ × ℚ) :=
  (List.range 1440).map (fun j => (j, p.getD (j % 1440) 0))

lemma listMean_perm {l l' : List ℚ} (h : l.Perm l') : listMean l = listMean l' := by
  unfold listMean
  rw [h.sum_eq, h.length_eq]

lemma listSS_perm {l l' : List ℚ} (h : l.Perm l') : listSS l = listSS l' := by
  unfold listSS
  rw [listMean_perm h]
  exact (h.map _).sum_eq

lemma listVar_perm {l l' : List ℚ} (h : l.Perm l') : listVar l = listVar l' := by
  rw [listVar_eq, listVar_eq, listSS_perm h, h.length_eq]

lemma periodicData_zero (p : List ℚ) : periodicData p 0 = [] := by
  simp [periodicData]

lemma periodicData_succ (p : List ℚ) (d : ℕ) :
    periodicData p (d + 1) =
      dayBlock p ++ (periodicData p d).map (fun r => (1440 + r.1, r.2)) := by
  unfold periodicData dayBlock
  rw [show 1440 * (d + 1) = 1440 + 1440 * d by ring, List.range_add, List.map_append]
  congr 1
  rw [List.map_map, List.map_map]
  apply List.map_congr_left
  intro t _
  simp only [Function.comp_apply]
  rw [Nat.add_mod_left]

lemma minuteKey_mod (t : ℕ) : minuteKey (t % 1440) = minuteKey t := by
  unfold minuteKey
  have h1 : t % 1440 / 60 % 24 = t / 60 % 24 := by omega
  have h2 : t % 1440 % 60 = t % 60 := by omega
  rw [h1, h2]

lemma minuteKey_add_1440 (t : ℕ) : minuteKey (1440 + t) = minuteKey t := by
  unfold minuteKey
  have h1 : (1440 + t) / 60 % 24 = t / 60 % 24 := by omega
  have h2 : (1440 + t) % 60 = t % 60 := by omega
  rw [h1, h2]

lemma minuteKey_inj {a b : ℕ} (ha : a < 1440) (hb : b < 1440)
    (h : minuteKey a = minuteKey b) : a = b := by
  unfold minuteKey at h
  have h1 := congrArg Prod.fst h
  have h2 := congrArg Prod.snd h
  simp only at h1 h2
  omega

lemma map_getD_range (l : List ℚ) :
    (List.range l.length).map (fun j => l.getD j 0) = l := by
  apply List.ext_getElem
  · simp
  · intro i h1 h2
    simp only [List.getElem_map, List.getElem_range]
    exact List.getD_eq_getElem l 0 h2

lemma filter_key_singleton {α κ : Type} [DecidableEq κ] (f : α → κ) :
    ∀ (l : List α), l.Nodup → ∀ j, j ∈ l → (∀ a ∈ l, f a = f j → a = j) →
      l.filter (fun a => decide (f a = f j)) = [j] := by
  intro l
  induction l with
  | nil =>
    intro _ j hj
    exact absurd hj (List.not_mem_nil j)
  | cons x xs ih =>
    intro hnd j hj hinj
    rcases List.mem_cons.mp hj with rfl | hj'
    · rw [List.filter_cons_of_pos (by simp)]
      have hnil : xs.filter (fun a => decide (f a = f j)) = [] := by
        rw [List.filter_eq_nil_iff]
        intro a ha
        simp only [decide_eq_true_eq]
        intro hfa
        have haj := hinj a (List.mem_cons_of_mem _ ha) hfa
        subst haj
        exact (List.nodup_cons.mp hnd).1 ha
      rw [hnil]
    · have hx : ¬ f x = f j := by
        intro hfx
        have hxj := hinj x (List.mem_cons_self _ _) hfx
        subst hxj
        exact (List.nodup_cons.mp hnd).1 hj'
      rw [List.filter_cons_of_neg (by simpa using hx)]
      exact ih (List.nodup_cons.mp hnd).2 j hj'
        (fun a ha => hinj a (List.mem_cons_of_mem _ ha))

lemma dayBlock_nodup (p : List ℚ) : (dayBlock p).Nodup := by
  unfold dayBlock
  exact (List.nodup_range 1440).map (fun a b hab => congrArg Prod.fst hab)

lemma dayBlock_filter_key (p : List ℚ) (j : ℕ) (hj : j < 1440) :
    (dayBlock p).filter (fun r => decide (minuteKey r.1 = minuteKey j)) =
      [(j, p.getD (j % 1440) 0)] := by
  have hmem : (j, p.getD (j % 1440) 0) ∈ dayBlock p := by
    unfold dayBlock
    exact List.mem_map.mpr ⟨j, List.mem_range.mpr hj, rfl⟩
  have hinj : ∀ a ∈ dayBlock p,
      (fun r : ℕ × ℚ => minuteKey r.1) a =
        (fun r : ℕ × ℚ => minuteKey r.1) (j, p.getD (j % 1440) 0) →
      a = (j, p.getD (j % 1440) 0) := by
    intro a ha hk
    rcases List.mem_map.mp ha with ⟨ja, hja, rfl⟩
    have : ja = j := minuteKey_inj (List.mem_range.mp hja) hj hk
    subst this
    rfl
  exact filter_key_singleton (fun r : ℕ × ℚ => minuteKey r.1) (dayBlock p)
    (dayBlock_nodup p) (j, p.getD (j % 1440) 0) hmem hinj

lemma groupVals_periodic (p : List ℚ) (j : ℕ) (hj : j < 1440) :
    ∀ d, groupVals minuteKey (periodicData p d) (minuteKey j) =
      List.replicate d (p.getD j 0) := by
  intro d
  induction d with
  | zero => simp [groupVals, periodicData_zero]
  | succ d ih =>
    unfold groupVals at ih ⊢
    rw [periodicData_succ, List.filter_append, List.map_append]
    have hshift : ((periodicData p d).map (fun r => (1440 + r.1, r.2))).filter
          (fun r => decide (minuteKey r.1 = minuteKey j)) =
        ((periodicData p d).filter (fun r => decide (minuteKey r.1 = minuteKey j))).map
          (fun r => (1440 + r.1, r.2)) := by
      rw [List.filter_map]
      congr 1
      apply List.filter_congr
      intro r _
      simp [Function.comp_apply, minuteKey_add_1440]
    rw [dayBlock_filter_key p j hj, hshift, List.map_map]
    have hsnd : ((periodicData p d).filter
          (fun r => decide (minuteKey r.1 = minuteKey j))).map
          (Prod.snd ∘ fun r => (1440 + r.1, r.2)) =
        ((periodicData p d).filter
          (fun r => decide (minuteKey r.1 = minuteKey j))).map Prod.snd := rfl
    rw [hsnd, ih, List.map_cons, List.map_nil, Nat.mod_eq_of_lt hj]
    rfl

lemma groupKeys_periodic (p : List ℚ) (d : ℕ) (hd : 1 ≤ d) :
    (groupKeys minuteKey (periodicData p d)).Perm ((List.range 1440).map minuteKey) := by
  have hnodR : ((List.range 1440).map minuteKey).Nodup :=
    (List.nodup_range 1440).map_on
      (fun a ha b hb hab =>
        minuteKey_inj (List.mem_range.mp ha) (List.mem_range.mp hb) hab)
  refine (List.perm_ext_iff_of_nodup (List.nodup_dedup _) hnodR).mpr ?_
  intro k
  unfold periodicData
  rw [List.mem_dedup, List.map_map]
  simp only [List.mem_map, List.mem_range, Function.comp_apply]
  constructor
  · rintro ⟨t, ht, rfl⟩
    exact ⟨t % 1440, by omega, (minuteKey_mod t).symm ▸ rfl⟩
  · rintro ⟨j, hjlt, rfl⟩
    exact ⟨j, by nlinarith, rfl⟩

lemma listMean_replicate (d : ℕ) (hd : 1 ≤ d) (x : ℚ) :
    listMean (List.replicate d x) = x := by
  unfold listMean
  rw [List.sum_replicate, List.length_replicate, nsmul_eq_mul]
  exact mul_div_cancel_left₀ x (by exact_mod_cast Nat.one_le_iff_ne_zero.mp hd)

lemma groupMeans_periodic (p : List ℚ) (hlen : p.length = 1440) (d : ℕ) (hd : 1 ≤ d) :
    (groupMeans minuteKey (periodicData p d)).Perm p := by
  unfold groupMeans
  refine ((groupKeys_periodic p d hd).map _).trans ?_
  rw [List.map_map]
  have hmap : (List.range 1440).map
      ((fun k => listMean (groupVals minuteKey (periodicData p d) k)) ∘ minuteKey) = p := by
    have hcongr : ∀ j ∈ List.range 1440,
        ((fun k => listMean (groupVals minuteKey (periodicData p d) k)) ∘ minuteKey) j =
          p.getD j 0 := by
      intro j hj
      simp only [Function.comp_apply]
      rw [groupVals_periodic p j (List.mem_range.mp hj) d, listMean_replicate d hd]
    rw [List.map_congr_left hcongr]
    rw [← hlen, map_getD_range]
  rw [hmap]

lemma vals_periodic (p : List ℚ) (hlen : p.length = 1440) :
    ∀ d, (periodicData p d).map Prod.snd = (List.replicate d p).flatten := by
  intro d
  induction d with
  | zero => simp [periodicData_zero]
  | succ d ih =>
    rw [periodicData_succ, List.map_append, List.map_map]
    have h1 : (dayBlock p).map Prod.snd = p := by
      unfold dayBlock
      rw [List.map_map]
      have hcongr : ∀ j ∈ List.range 1440,
          (Prod.snd ∘ fun j' => (j', p.getD (j' % 1440) 0)) j = p.getD j 0 := by
        intro j hj
        simp only [Function.comp_apply]
        rw [Nat.mod_eq_of_lt (List.mem_range.mp hj)]
      rw [List.map_congr_left hcongr, ← hlen, map_getD_range]
    have h2 : (periodicData p d).map (Prod.snd ∘ fun r => (1440 + r.1, r.2)) =
        (List.replicate d p).flatten := by
      rw [show (Prod.snd ∘ fun (r : ℕ × ℚ) => (1440 + r.1, r.2)) = Prod.snd from rfl, ih]
    rw [h1, h2, List.replicate_succ, List.flatten_cons]

lemma flatten_replicate_length (p : List ℚ) :
    ∀ d, ((List.replicate d p).flatten).length = d * p.length := by
  intro d
  induction d with
  | zero => simp
  | succ d ih =>
    rw [List.replicate_succ, List.flatten_cons, List.length_append, ih]
    ring

lemma map_flatten_replicate_sum (f : ℚ → ℚ) (p : List ℚ) :
    ∀ d, (((List.replicate d p).flatten).map f).sum = d * ((p.map f).sum) := by
  intro d
  induction d with
  | zero => simp
  | succ d ih =>
    rw [List.replicate_succ, List.flatten_cons, List.map_append, List.sum_append, ih]
    push_cast
    ring

lemma flatten_replicate_sum (p : List ℚ) :
    ∀ d, ((List.replicate d p).flatten).sum = d * p.sum := by
  intro d
  induction d with
  | zero => simp
  | succ d ih =>
    rw [List.replicate_succ, List.flatten_cons, List.sum_append, ih]
    push_cast
    ring

lemma listMean_flatten_replicate (p : List ℚ) (d : ℕ) (hd : 1 ≤ d) :
    listMean ((List.replicate d p).flatten) = listMean p := by
  unfold listMean
  rw [flatten_replicate_sum, flatten_replicate_length]
  push_cast
  exact mul_div_mul_left p.sum (p.length : ℚ)
    (by exact_mod_cast Nat.one_le_iff_ne_zero.mp hd)

lemma listSS_flatten_replicate (p : List ℚ) (d : ℕ) (hd : 1 ≤ d) :
    listSS ((List.replicate d p).flatten) = d * listSS p := by
  unfold listSS
  rw [listMean_flatten_replicate p d hd, map_flatten_replicate_sum]


/-- Hour-of-day key, the grouping the spec's words describe. -/
def hourKey (t : ℕ) : ℕ := (t / 60) % 24

/-- The spec's wording of IS: variance of the hour-of-day group means over
the overall variance. -/
def IS_specHour (data : List (ℕ × ℚ)) : ℚ :=
  listVar (groupMeans hourKey data) / listVar (data.map Prod.snd)

/-- C10 counterexample data: one day, minutes 0, 1, 60, 61 with values
0, 1, 0, 1. -/
def c10Data : List (ℕ × ℚ) := [(0, 0), (1, 1), (60, 0), (61, 1)]

end Charm

open Charm

/-- C9: on (−4π, 0) the canonicalization lands in [0, 2π); −π/2 maps to
3π/2; non-negative inputs are returned unchanged. -/
theorem C9_acro_neg_to_pos_range :
    (∀ x : ℝ, -(4 * Real.pi) < x → x < 0 →
       0 ≤ acro_neg_to_pos x ∧ acro_neg_to_pos x < 2 * Real.pi) ∧
    acro_neg_to_pos (-(Real.pi / 2)) = 3 * Real.pi / 2 ∧
    (∀ x : ℝ, 0 ≤ x → acro_neg_to_pos x = x) := by
  have hpi := Real.pi_pos
  refine ⟨?_, ?_, ?_⟩
  · intro x h4 h0
    rw [acro_neg_to_pos, dif_pos h0]
    by_cases h2 : x + 2 * Real.pi < 0
    · rw [acro_neg_to_pos, dif_pos h2]
      rw [acro_neg_to_pos, dif_neg (by linarith)]
      constructor <;> linarith
    · rw [acro_neg_to_pos, dif_neg h2]
      constructor <;> linarith
  · rw [acro_neg_to_pos, dif_pos (by linarith)]
    rw [acro_neg_to_pos, dif_neg (by linarith)]
    ring
  · intro x hx
    rw [acro_neg_to_pos, dif_neg (by linarith)]

/-- Witness for C9 at the concrete input −1. -/
theorem C9_acro_neg_to_pos_witness :
    (-(4 * Real.pi) < -1 ∧ (-1 : ℝ) < 0) ∧
      (0 ≤ acro_neg_to_pos (-1) ∧ acro_neg_to_pos (-1) < 2 * Real.pi) :=
  ⟨⟨by nlinarith [Real.pi_gt_three], by norm_num⟩,
    C9_acro_neg_to_pos_range.1 (-1) (by nlinarith [Real.pi_gt_three]) (by norm_num)⟩

/-- C4: on a battery series whose window at index 0 has a strictly decreasing
first half and a second half rising by 20 > 5, the claim (and the code's own
comment) mark a charge start at the first timestamp minus the 5-minute
buffer, but the executed guard `level_diff[:20].all() <= 0` requires a zero
difference among the first 19 and detects nothing: the code returns only the
study end 999 where the spec-modelled scan returns [-5, 999]. -/
theorem C4_level_trend_divergence :
    charging_timev2_starts c4FailRows 999 = [999] ∧
      charging_timev2_starts_specModel c4FailRows 999 = [-5, 999] := by
  constructor
  · decide
  · decide

/-- C5: `files_to_time` maps each maximal run of missing hours at most one
hour apart to the single interval from its first hour to one hour past its
last hour; an isolated missing hour yields an interval of exactly one hour
(`specRuns` is the run decomposition written from the spec's words). -/
theorem C5_files_to_time (ms : List ℕ) :
    files_to_time ms =
      ((specRuns ms).map Prod.fst, (specRuns ms).map Prod.snd) := by
  cases ms with
  | nil => rfl
  | cons x xs =>
    show f2t_loop (x :: xs) none none [] [] = _
    rw [f2t_loop]
    have hstep : f2t_step x none none [] [] = (some x, [], []) := by
      simp [f2t_step, f2t_gap, f2t_open]
    rw [hstep]
    simpa [specRuns] using f2t_loop_spec xs x x [] []

/-- C2: `remove_single_non_wearing` retains a row iff `|diff| < 2·average` or
`|diff| < 500`; in particular (400, 100) and (1500, 1000) are kept while
(1500, 100) is removed. -/
theorem C2_single_non_wearing_filter :
    (∀ data : List (ℚ × ℚ),
       remove_single_non_wearing data = data.filter (fun r => decide (specSingleKeep r))) ∧
    remove_single_non_wearing [(400, 100), (1500, 1000), (1500, 100)] =
      [(400, 100), (1500, 1000)] := by
  constructor
  · intro data
    unfold remove_single_non_wearing
    apply List.filter_congr
    intro r _
    simp only [decide_eq_decide, specSingleKeep, abs_lt]
    constructor
    · rintro (⟨h1, h2⟩ | h) <;> [exact Or.inl ⟨by linarith, h1⟩; exact Or.inr h]
    · rintro (⟨h1, h2⟩ | h) <;> [exact Or.inl ⟨h2, by linarith⟩; exact Or.inr h]
  · norm_num [remove_single_non_wearing, List.filter]

/-- C3 (amended): the reconciliation drops a single element, so the two lists
returned by `find_charging_time` have equal length whenever every state code
of the series is one of the recognized codes 1..6 (the imbalance between
rising and falling transitions is then at most one). -/
theorem C3_reconciliation_equal_length (rows : List (ℤ × ℤ))
    (h : ∀ r ∈ rows, isNotChargingCode r.2 ∨ isChargingCode r.2) :
    (find_charging_time rows).1.length = (find_charging_time rows).2.length := by
  have himb := start_end_imbalance_le_one rows h
  have hst := chargeStarts_length rows
  have hen := chargeEnds_length rows
  unfold find_charging_time
  split_ifs with h1 h2 <;>
    simp only [List.length_drop, List.length_dropLast] <;>
    omega

/-- Witness for C3: a series with states 1,3,1 has one rising and one falling
transition; the reconciled lists both have length 1. -/
theorem C3_reconciliation_witness :
    (∀ r ∈ [((0 : ℤ), (1 : ℤ)), (1, 3), (2, 1)], isNotChargingCode r.2 ∨ isChargingCode r.2) ∧
    (find_charging_time [((0 : ℤ), (1 : ℤ)), (1, 3), (2, 1)]).1.length =
      (find_charging_time [((0 : ℤ), (1 : ℤ)), (1, 3), (2, 1)]).2.length :=
  ⟨by decide, C3_reconciliation_equal_length _ (by decide)⟩

/-- C3 counterexample: for the battery series with states 0,3,1,0,3,1 the
state-transition pass finds 0 charge-starts and 2 charge-ends; dropping the
single earliest end leaves lists of unequal length (0 vs 1), refuting the
claim that reconciliation always yields equal-length lists. -/
theorem C3_counterexample :
    (find_charging_time [(0, 0), (1, 3), (2, 1), (3, 0), (4, 3), (5, 1)]).1.length ≠
    (find_charging_time [(0, 0), (1, 3), (2, 1), (3, 0), (4, 3), (5, 1)]).2.length := by
  decide

/-- C8: every row of the combined valid-wear table produced by
`combine_battery_nofile` satisfies Start < End: the positions where the sorted
start is not strictly before the sorted end are dropped from both columns. -/
theorem C8_combined_start_lt_end (bs be ns ne : List ℤ) :
    (combine_battery_nofile bs be ns ne).all (fun p => decide (p.1 < p.2)) = true := by
  rw [List.all_eq_true]
  intro p hp
  simpa using (List.mem_filter.mp hp).2

/-- C6: a raw hourly acceleration or heart-rate file whose parsed series has
fewer than 50 samples is rejected by the reader, which returns no data. -/
theorem C6_reject_under_50_samples :
    (∀ (h0 : ℤ) (rows : List (Option ℤ × ℚ × ℚ × ℚ)),
       (rows.filterMap (fun r =>
         match r.1 with
         | some t => some (t, r.2)
         | none => none)).length < 50 →
       acc_watch_csv h0 rows = none) ∧
    (∀ (h0 : ℤ) (rows : List (Option ℤ × ℤ × Option ℚ × ℚ)),
       rows.length < 50 → hr_csv h0 rows = none) := by
  constructor
  · intro h0 rows h
    unfold acc_watch_csv
    rw [if_pos h]
  · intro h0 rows h
    unfold hr_csv
    rw [if_pos h]

/-- Witness for C6: the empty hourly file is rejected by both readers. -/
theorem C6_reject_witness :
    (([] : List (Option ℤ × ℚ × ℚ × ℚ)).filterMap (fun r =>
        match r.1 with
        | some t => some (t, r.2)
        | none => none)).length < 50 ∧
    acc_watch_csv 0 [] = none ∧ hr_csv 0 ([] : List (Option ℤ × ℤ × Option ℚ × ℚ)) = none :=
  ⟨by decide, C6_reject_under_50_samples.1 0 [] (by decide),
    C6_reject_under_50_samples.2 0 [] (by decide)⟩

/-- C7 counterexample: two rows with timestamp 5 and different values.  The
claim says the reader keeps the last occurrence, i.e. value 2, but
`acc_watch_csv`'s deduplication (`~df.index.duplicated()`, pandas default
`keep='first'`) keeps the first occurrence, value 1. -/
theorem C7_counterexample :
    dedupFirstByTime [((5 : ℤ), (1 : ℚ)), (5, 2)] = [(5, 1)] ∧
      dedupFirstByTime [((5 : ℤ), (1 : ℚ)), (5, 2)] ≠ [(5, 2)] := by
  constructor
  · rw [dedupFirstByTime]
    norm_num [List.filter, dedupFirstByTime]
  · rw [dedupFirstByTime]
    norm_num [List.filter, dedupFirstByTime]

/-- C7 (amended): after reader-level sorting the timestamps are monotonically
non-decreasing (`acc_watch_csv` reattaches the sorted index to the rows in
place); its deduplication keeps the FIRST occurrence of each duplicated
timestamp — the retained value at any timestamp is the first one recorded,
and the deduplicated times are pairwise distinct; `core_csv`'s
`drop_duplicates(keep='last')` keeps the last occurrence of each fully
duplicated row. -/
theorem C7_sorted_and_dedup_policy :
    (∀ l : List (ℤ × ℚ × ℚ × ℚ),
       ((sortIndexKeepValues l).map Prod.fst).Sorted (· ≤ ·)) ∧
    (∀ (l : List (ℤ × ℚ × ℚ × ℚ)) (t : ℤ),
       firstValueAt t (dedupFirstByTime l) = firstValueAt t l) ∧
    (∀ l : List (ℤ × ℚ × ℚ × ℚ), ((dedupFirstByTime l).map Prod.fst).Nodup) ∧
    (∀ (l : List (ℤ × ℚ × ℚ × ℚ)) (x : ℤ × ℚ × ℚ × ℚ),
       drop_duplicates_keep_last (l ++ [x]) =
         (drop_duplicates_keep_last l).filter (fun y => decide (y ≠ x)) ++ [x]) := by
  refine ⟨?_, ?_, ?_, ?_⟩
  · intro l
    unfold sortIndexKeepValues
    rw [List.map_fst_zip]
    · exact List.sorted_mergeSort' _
    · rw [List.length_mergeSort]
      simp
  · intro l t
    exact dedupFirstByTime_firstValueAt l.length l le_rfl t
  · intro l
    exact dedupFirstByTime_times_nodup l.length l le_rfl
  · intro l x
    exact drop_duplicates_keep_last_append x l

/-- C1 counterexample: for the merged table with rows at minutes 0 and 16
(both devices active, no sleep), no window satisfies the removal rule — the
non-wear start list is empty — yet the output loses the trailing sample at
minute 16, so "every other window is retained in the output" fails. -/
theorem C1_counterexample :
    (remove_both_non_wearing [((0 : ℤ), (1 : ℚ), (1 : ℚ)), (16, 1, 1)] []).1 = [] ∧
    (remove_both_non_wearing [((0 : ℤ), (1 : ℚ), (1 : ℚ)), (16, 1, 1)] []).2 = [(0, 1, 1)] ∧
    (remove_both_non_wearing [((0 : ℤ), (1 : ℚ), (1 : ℚ)), (16, 1, 1)] []).2 ≠
      [((0 : ℤ), (1 : ℚ), (1 : ℚ)), (16, 1, 1)] := by
  norm_num [remove_both_non_wearing, windowStarts, windowOf, inSleep, check_both_zero,
    List.foldl, List.filter]

/-- C1 (amended): over the window starts `min, min+15, …` up to `max − 15`,
the filter removes exactly the windows satisfying the removal rule (outside
sleep, ≥ 2 samples, both devices zero except on the last sample), records
exactly the removed windows' first timestamps as non-wear starts, and retains
exactly the other windows — samples after the last generated window (in
particular the one at the maximum timestamp) are dropped unconditionally, and
a series spanning under 15 minutes yields an empty output. -/
theorem C1_window_filter_characterization (data : List (ℤ × ℚ × ℚ))
    (sleep : List (ℤ × ℤ)) :
    remove_both_non_wearing data sleep =
      ((windowStarts (((data.map Prod.fst).min?).getD 0)
          (((data.map Prod.fst).max?).getD 0)).filterMap (fun ws =>
            if removedWindow data sleep ws then
              some (((windowOf data ws).map Prod.fst).headD 0)
            else none),
       (windowStarts (((data.map Prod.fst).min?).getD 0)
          (((data.map Prod.fst).max?).getD 0)).flatMap (fun ws =>
            if removedWindow data sleep ws then [] else windowOf data ws)) := by
  unfold remove_both_non_wearing
  rw [rbnw_foldl_spec]
  simp

/-- C10 counterexample: on the series with minutes 0, 1, 60, 61 and values
0, 1, 0, 1, the engine's IS (minute-of-day group means) is 1 while the
claim's formula (hour-of-day group means over overall variance) gives 0, so
the claim's description of IS is false of the code. -/
theorem C10_counterexample :
    (non_parametrics c10Data).1 = 1 ∧ IS_specHour c10Data = 0 ∧
      (non_parametrics c10Data).1 ≠ IS_specHour c10Data := by
  have hvals : c10Data.map Prod.snd = [0, 1, 0, 1] := by decide
  have hvarAll : listVar [(0 : ℚ), 1, 0, 1] = 1 / 3 := by
    norm_num [listVar, listMean]
  have hkeys : groupKeys minuteKey c10Data = [(0, 0), (0, 1), (1, 0), (1, 1)] := by decide
  have hv1 : groupVals minuteKey c10Data (0, 0) = [0] := by decide
  have hv2 : groupVals minuteKey c10Data (0, 1) = [1] := by decide
  have hv3 : groupVals minuteKey c10Data (1, 0) = [0] := by decide
  have hv4 : groupVals minuteKey c10Data (1, 1) = [1] := by decide
  have hmeans : groupMeans minuteKey c10Data = [0, 1, 0, 1] := by
    rw [groupMeans, hkeys]
    rw [List.map_cons, List.map_cons, List.map_cons, List.map_cons, List.map_nil]
    rw [hv1, hv2, hv3, hv4]
    norm_num [listMean]
  have hkeysH : groupKeys hourKey c10Data = [0, 1] := by decide
  have hvH1 : groupVals hourKey c10Data 0 = [0, 1] := by decide
  have hvH2 : groupVals hourKey c10Data 1 = [0, 1] := by decide
  have hmeansH : groupMeans hourKey c10Data = [1 / 2, 1 / 2] := by
    rw [groupMeans, hkeysH]
    rw [List.map_cons, List.map_cons, List.map_nil]
    rw [hvH1, hvH2]
    norm_num [listMean]
  have hIS : (non_parametrics c10Data).1 = 1 := by
    show listVar (groupMeans minuteKey c10Data) / listVar (c10Data.map Prod.snd) = 1
    rw [hmeans, hvals, hvarAll]
    norm_num [listVar, listMean]
  have hISH : IS_specHour c10Data = 0 := by
    show listVar (groupMeans hourKey c10Data) / listVar (c10Data.map Prod.snd) = 0
    rw [hmeansH, hvals, hvarAll]
    norm_num [listVar, listMean]
  refine ⟨hIS, hISH, ?_⟩
  rw [hIS, hISH]
  norm_num

/-- C10 (amended): IS is the variance of the minute-of-day group means over
the overall variance (IV as claimed is the definition of `non_parametrics`);
consequently a nonconstant signal covering d full 1440-minute days and
repeating identically every 24 hours yields IS = (1440·d − 1)/(1439·d),
within 1/1000 of 1.0 but not exactly 1.0. -/
theorem C10_periodic_IS_exact (p : List ℚ) (d : ℕ) (hlen : p.length = 1440)
    (hd : 1 ≤ d) (hss : listSS p ≠ 0) :
    (non_parametrics (periodicData p d)).1 = ((1440 * d : ℚ) - 1) / (1439 * d) ∧
      |(non_parametrics (periodicData p d)).1 - 1| ≤ 1 / 1000 := by
  have hd1 : (1 : ℚ) ≤ (d : ℚ) := by exact_mod_cast hd
  have hd0 : (d : ℚ) ≠ 0 := by linarith
  have hX : ((1440 : ℚ) * d - 1) ≠ 0 := by nlinarith
  have hIS : (non_parametrics (periodicData p d)).1 =
      ((1440 * d : ℚ) - 1) / (1439 * d) := by
    show listVar (groupMeans minuteKey (periodicData p d)) /
        listVar ((periodicData p d).map Prod.snd) = _
    rw [listVar_perm (groupMeans_periodic p hlen d hd), vals_periodic p hlen d,
      listVar_eq, listVar_eq, listSS_flatten_replicate p d hd,
      flatten_replicate_length, hlen]
    push_cast
    have hX2 : ((d : ℚ) * 1440 - 1) ≠ 0 := by nlinarith
    field_simp
    ring
  refine ⟨hIS, ?_⟩
  rw [hIS]
  have h1439d : (0 : ℚ) < 1439 * d := by nlinarith
  have heq : ((1440 * (d : ℚ) - 1) / (1439 * d)) - 1 = ((d : ℚ) - 1) / (1439 * d) := by
    field_simp
    ring
  rw [heq, abs_of_nonneg (div_nonneg (by linarith) (le_of_lt h1439d)),
    div_le_div_iff₀ h1439d (by norm_num)]
  nlinarith

/-- Witness for C10 at the 1440-minute two-level profile and d = 2. -/
theorem C10_periodic_IS_witness :
    ((List.replicate 720 (0 : ℚ) ++ List.replicate 720 1).length = 1440 ∧ (1 : ℕ) ≤ 2 ∧
      listSS (List.replicate 720 (0 : ℚ) ++ List.replicate 720 1) ≠ 0) ∧
    (non_parametrics
        (periodicData (List.replicate 720 (0 : ℚ) ++ List.replicate 720 1) 2)).1 =
      ((1440 * 2 : ℚ) - 1) / (1439 * 2) := by
  have hlen : (List.replicate 720 (0 : ℚ) ++ List.replicate 720 1).length = 1440 := by
    rw [List.length_append, List.length_replicate, List.length_replicate]
  have hmean : listMean (List.replicate 720 (0 : ℚ) ++ List.replicate 720 1) = 1 / 2 := by
    unfold listMean
    rw [List.sum_append, List.sum_replicate, List.sum_replicate, hlen]
    norm_num
  have hss : listSS (List.replicate 720 (0 : ℚ) ++ List.replicate 720 1) ≠ 0 := by
    unfold listSS
    rw [List.map_append, List.map_replicate, List.map_replicate, List.sum_append,
      List.sum_replicate, List.sum_replicate, hmean]
    norm_num
  exact ⟨⟨hlen, by norm_num, hss⟩,
    (C10_periodic_IS_exact _ 2 hlen (by norm_num) hss).1⟩
